import Mathlib

/-!
Shallow embedding of the connection & request-orchestration layer of the
MCP inspector client (`src/client/src/components/App.tsx` and the
`MCPServerButton` connection-manager component), together with theorems
checking the frozen specification claims against it.

State updates performed through React `useState` setters are modelled as
explicit state passing; server responses awaited through the transport are
modelled as oracle arguments (the value `await makeRequest(...)` resolved
to, or the error it rejected with, as an `Except`).
-/

namespace Inspector

/-! ## Pagination (App.tsx listResources / listResourceTemplates / listPrompts / listTools,
and the clear callbacks passed to the tabs) -/

/-- Response shape of `resources/list` (`ListResourcesResultSchema`): the code
reads `response.resources ?? []`, so the item list may be absent. -/
structure ListResourcesResult (α : Type) where
  resources : Option (List α)
  nextCursor : Option String
deriving DecidableEq, Repr

/-- Response shape of `resources/templates/list`: the code reads
`response.resourceTemplates ?? []`. -/
structure ListResourceTemplatesResult (α : Type) where
  resourceTemplates : Option (List α)
  nextCursor : Option String
deriving DecidableEq, Repr

/-- Response shape of `prompts/list`: `response.prompts` is read directly. -/
structure ListPromptsResult (α : Type) where
  prompts : List α
  nextCursor : Option String
deriving DecidableEq, Repr

/-- Response shape of `tools/list`: `response.tools` is read directly. -/
structure ListToolsResult (α : Type) where
  tools : List α
  nextCursor : Option String
deriving DecidableEq, Repr

/-- The pagination-relevant part of the `App` component state: the four
accumulated item lists and their four cursor slots. -/
structure PaginationAppState (α : Type) where
  resources : List α
  resourceTemplates : List α
  prompts : List α
  tools : List α
  nextResourceCursor : Option String
  nextResourceTemplateCursor : Option String
  nextPromptCursor : Option String
  nextToolCursor : Option String
deriving DecidableEq, Repr

/-- Initial component state: all item lists empty, all cursors absent. -/
def initialPaginationState (α : Type) : PaginationAppState α :=
  ⟨[], [], [], [], none, none, none, none⟩

/-- Source `listResources`: `setResources(resources.concat(response.resources ?? []))`
then `setNextResourceCursor(response.nextCursor)`. -/
def listResources (s : PaginationAppState α) (response : ListResourcesResult α) :
    PaginationAppState α :=
  { s with
    resources := s.resources ++ response.resources.getD []
    nextResourceCursor := response.nextCursor }

/-- Source `listResourceTemplates`:
`setResourceTemplates(resourceTemplates.concat(response.resourceTemplates ?? []))`
then `setNextResourceTemplateCursor(response.nextCursor)`. -/
def listResourceTemplates (s : PaginationAppState α)
    (response : ListResourceTemplatesResult α) : PaginationAppState α :=
  { s with
    resourceTemplates := s.resourceTemplates ++ response.resourceTemplates.getD []
    nextResourceTemplateCursor := response.nextCursor }

/-- Source `listPrompts`: `setPrompts(response.prompts)` (the previous list is
replaced, not extended) then `setNextPromptCursor(response.nextCursor)`. -/
def listPrompts (s : PaginationAppState α) (response : ListPromptsResult α) :
    PaginationAppState α :=
  { s with
    prompts := response.prompts
    nextPromptCursor := response.nextCursor }

/-- Source `listTools`: `setTools(response.tools)` (the previous list is replaced,
not extended) then `setNextToolCursor(response.nextCursor)`. -/
def listTools (s : PaginationAppState α) (response : ListToolsResult α) :
    PaginationAppState α :=
  { s with
    tools := response.tools
    nextToolCursor := response.nextCursor }

/-- The `clearResources` callback: `setResources([]); setNextResourceCursor(undefined)`. -/
def clearResources (s : PaginationAppState α) : PaginationAppState α :=
  { s with resources := [], nextResourceCursor := none }

/-- The `clearResourceTemplates` callback. -/
def clearResourceTemplates (s : PaginationAppState α) : PaginationAppState α :=
  { s with resourceTemplates := [], nextResourceTemplateCursor := none }

/-- The `clearPrompts` callback: `setPrompts([]); setNextPromptCursor(undefined)`. -/
def clearPrompts (s : PaginationAppState α) : PaginationAppState α :=
  { s with prompts := [], nextPromptCursor := none }

/-- The `clearTools` callback: `setTools([]); setNextToolCursor(undefined)`. -/
def clearTools (s : PaginationAppState α) : PaginationAppState α :=
  { s with tools := [], nextToolCursor := none }

/-- A sequence of `listResources` calls, fed the pages the server returned. -/
def listResourcesSeq (s : PaginationAppState α) (pages : List (ListResourcesResult α)) :
    PaginationAppState α :=
  pages.foldl listResources s

/-- A sequence of `listResourceTemplates` calls. -/
def listResourceTemplatesSeq (s : PaginationAppState α)
    (pages : List (ListResourceTemplatesResult α)) : PaginationAppState α :=
  pages.foldl listResourceTemplates s

/-- A sequence of `listPrompts` calls. -/
def listPromptsSeq (s : PaginationAppState α) (pages : List (ListPromptsResult α)) :
    PaginationAppState α :=
  pages.foldl listPrompts s

/-- A sequence of `listTools` calls. -/
def listToolsSeq (s : PaginationAppState α) (pages : List (ListToolsResult α)) :
    PaginationAppState α :=
  pages.foldl listTools s

theorem listResourcesSeq_resources (s : PaginationAppState α)
    (pages : List (ListResourcesResult α)) :
    (listResourcesSeq s pages).resources =
      s.resources ++ (pages.map (fun p => p.resources.getD [])).flatten := by
  induction pages generalizing s with
  | nil => simp [listResourcesSeq]
  | cons p ps ih =>
    simp [listResourcesSeq, List.foldl_cons] at *
    rw [ih]
    simp [listResources, List.append_assoc]

theorem listResourceTemplatesSeq_templates (s : PaginationAppState α)
    (pages : List (ListResourceTemplatesResult α)) :
    (listResourceTemplatesSeq s pages).resourceTemplates =
      s.resourceTemplates ++ (pages.map (fun p => p.resourceTemplates.getD [])).flatten := by
  induction pages generalizing s with
  | nil => simp [listResourceTemplatesSeq]
  | cons p ps ih =>
    simp [listResourceTemplatesSeq, List.foldl_cons] at *
    rw [ih]
    simp [listResourceTemplates, List.append_assoc]

theorem listPromptsSeq_prompts (s : PaginationAppState α)
    (pages : List (ListPromptsResult α)) :
    (listPromptsSeq s pages).prompts = (pages.map ListPromptsResult.prompts).getLastD s.prompts := by
  induction pages generalizing s with
  | nil => simp [listPromptsSeq]
  | cons p ps ih =>
    simp only [listPromptsSeq, List.foldl_cons, List.map_cons, List.getLastD_cons]
    exact ih (listPrompts s p)

theorem listToolsSeq_tools (s : PaginationAppState α)
    (pages : List (ListToolsResult α)) :
    (listToolsSeq s pages).tools = (pages.map ListToolsResult.tools).getLastD s.tools := by
  induction pages generalizing s with
  | nil => simp [listToolsSeq]
  | cons p ps ih =>
    simp only [listToolsSeq, List.foldl_cons, List.map_cons, List.getLastD_cons]
    exact ih (listTools s p)

/-- C1 counterexample: for category `tools`, two list calls returning pages
`[1]` then `[2]` leave `tools = [2]`, not the concatenation `[1, 2]`: the
accumulated sequence does not equal the concatenation of the returned pages. -/
theorem listTools_concat_counterexample :
    ¬ ((listToolsSeq (initialPaginationState Nat)
        [⟨[1], some "c1"⟩, ⟨[2], none⟩]).tools = [1, 2]) := by
  decide

/-- C1 (amended): for `resources` and `resourceTemplates` a sequence of list
calls with no intervening clear accumulates the concatenation of the returned
pages in call order; for `prompts` and `tools` the accumulated list equals the
most recently returned page (the prior value when no call was made); and for
every category, a clear followed by a single list call reproduces exactly the
first page returned. -/
theorem listPage_accumulation (α : Type) (s : PaginationAppState α)
    (rps : List (ListResourcesResult α)) (tps : List (ListResourceTemplatesResult α))
    (pps : List (ListPromptsResult α)) (lps : List (ListToolsResult α))
    (rp : ListResourcesResult α) (tp : ListResourceTemplatesResult α)
    (pp : ListPromptsResult α) (lp : ListToolsResult α) :
    (listResourcesSeq s rps).resources =
        s.resources ++ (rps.map (fun p => p.resources.getD [])).flatten
    ∧ (listResourceTemplatesSeq s tps).resourceTemplates =
        s.resourceTemplates ++ (tps.map (fun p => p.resourceTemplates.getD [])).flatten
    ∧ (listPromptsSeq s pps).prompts = (pps.map ListPromptsResult.prompts).getLastD s.prompts
    ∧ (listToolsSeq s lps).tools = (lps.map ListToolsResult.tools).getLastD s.tools
    ∧ (listResources (clearResources s) rp).resources = rp.resources.getD []
    ∧ (listResourceTemplates (clearResourceTemplates s) tp).resourceTemplates =
        tp.resourceTemplates.getD []
    ∧ (listPrompts (clearPrompts s) pp).prompts = pp.prompts
    ∧ (listTools (clearTools s) lp).tools = lp.tools := by
  refine ⟨listResourcesSeq_resources s rps, listResourceTemplatesSeq_templates s tps,
    listPromptsSeq_prompts s pps, listToolsSeq_tools s lps, ?_, ?_, ?_, ?_⟩
  · simp [listResources, clearResources]
  · simp [listResourceTemplates, clearResourceTemplates]
  · simp [listPrompts, clearPrompts]
  · simp [listTools, clearTools]

/-! ## Category error state (App.tsx `errors`, `clearError`, `sendMCPRequest`) -/

/-- The keys of the `errors` record: `resources | prompts | tools`. -/
inductive TabKey where
  | resources
  | prompts
  | tools
deriving DecidableEq, Repr

/-- The `errors` record state: `Record<string, string | null>` with the three
category keys, each holding the last error message or `null`. -/
structure ErrorsState where
  resources : Option String
  prompts : Option String
  tools : Option String
deriving DecidableEq, Repr

/-- Initial `errors` state: all three entries `null`. -/
def initialErrors : ErrorsState := ⟨none, none, none⟩

/-- Read one entry of the `errors` record. -/
def ErrorsState.get (e : ErrorsState) : TabKey → Option String
  | .resources => e.resources
  | .prompts => e.prompts
  | .tools => e.tools

/-- The spread update `{...prev, [tabKey]: v}` on the `errors` record. -/
def ErrorsState.set (e : ErrorsState) : TabKey → Option String → ErrorsState
  | .resources, v => { e with resources := v }
  | .prompts, v => { e with prompts := v }
  | .tools, v => { e with tools := v }

/-- Source `clearError(tabKey)`: `setErrors(prev => ({...prev, [tabKey]: null}))`. -/
def clearError (e : ErrorsState) (tabKey : TabKey) : ErrorsState :=
  e.set tabKey none

/-- Source `sendMCPRequest(request, schema, tabKey?)`: awaits `makeRequest` (whose
outcome is the `result` oracle argument); on success clears the category error
when a `tabKey` was given and returns the response; on failure records the
error message under the category when a `tabKey` was given and re-throws
(`throw e`), modelled by returning the failure unchanged. -/
def sendMCPRequest (e : ErrorsState) (tabKey : Option TabKey)
    (result : Except String ρ) : ErrorsState × Except String ρ :=
  match result with
  | .ok response =>
      (match tabKey with
       | some k => clearError e k
       | none => e,
       .ok response)
  | .error errorString =>
      (match tabKey with
       | some k => e.set k (some errorString)
       | none => e,
       .error errorString)

theorem ErrorsState.get_set_self (e : ErrorsState) (k : TabKey) (v : Option String) :
    (e.set k v).get k = v := by
  cases k <;> rfl

theorem ErrorsState.get_set_other (e : ErrorsState) (k q : TabKey) (v : Option String)
    (h : q ≠ k) : (e.set k v).get q = e.get q := by
  cases k <;> cases q <;> first
    | rfl
    | exact absurd rfl h

/-- C3: a dispatch carrying category `k` updates only the error entry of `k`
(on success it is cleared, on failure it is overwritten with the message); the
entry of every other category `q ≠ k` is left unchanged. -/
theorem sendMCPRequest_category_isolation (ρ : Type) (e : ErrorsState) (k q : TabKey)
    (result : Except String ρ) (hq : q ≠ k) :
    (sendMCPRequest e (some k) result).1.get q = e.get q
    ∧ (sendMCPRequest e (some k) result).1.get k =
        (match result with
         | .ok _ => none
         | .error msg => some msg) := by
  constructor
  · cases result with
    | ok r => exact ErrorsState.get_set_other e k q none hq
    | error msg => exact ErrorsState.get_set_other e k q (some msg) hq
  · cases result with
    | ok r => exact ErrorsState.get_set_self e k none
    | error msg => exact ErrorsState.get_set_self e k (some msg)

/-- Witness for C3 at a concrete input: category `tools` fails with message
`"boom"`; the `prompts` entry is untouched and the `tools` entry records it. -/
theorem sendMCPRequest_category_isolation_witness :
    TabKey.prompts ≠ TabKey.tools
    ∧ ((sendMCPRequest ⟨none, some "old", none⟩ (some TabKey.tools)
          ((Except.error "boom" : Except String Nat))).1.get TabKey.prompts =
        ErrorsState.get ⟨none, some "old", none⟩ TabKey.prompts
      ∧ (sendMCPRequest ⟨none, some "old", none⟩ (some TabKey.tools)
          ((Except.error "boom" : Except String Nat))).1.get TabKey.tools =
        (match ((Except.error "boom" : Except String Nat) : Except String Nat) with
         | .ok _ => none
         | .error msg => some msg)) :=
  ⟨by decide,
   sendMCPRequest_category_isolation Nat ⟨none, some "old", none⟩ TabKey.tools
     TabKey.prompts (Except.error "boom") (by decide)⟩

/-- C5: a failing dispatch carrying a category records the error message under
that category and re-raises the same failure to the immediate caller — the
returned outcome is exactly the dispatch failure, never swallowed. -/
theorem sendMCPRequest_records_and_reraises (ρ : Type) (e : ErrorsState) (k : TabKey)
    (msg : String) (result : Except String ρ) (h : result = Except.error msg) :
    (sendMCPRequest e (some k) result).2 = result
    ∧ (sendMCPRequest e (some k) result).1.get k = some msg := by
  subst h
  exact ⟨rfl, ErrorsState.get_set_self e k (some msg)⟩

/-- Witness for C5 at a concrete input. -/
theorem sendMCPRequest_records_and_reraises_witness :
    ((Except.error "refused" : Except String Nat) : Except String Nat) = Except.error "refused"
    ∧ ((sendMCPRequest initialErrors (some TabKey.resources)
          ((Except.error "refused" : Except String Nat))).2 = Except.error "refused"
      ∧ (sendMCPRequest initialErrors (some TabKey.resources)
          ((Except.error "refused" : Except String Nat))).1.get TabKey.resources = some "refused") :=
  ⟨rfl,
   sendMCPRequest_records_and_reraises Nat initialErrors TabKey.resources "refused"
     (Except.error "refused") rfl⟩

/-! ## Sampling approval queue (App.tsx `pendingSampleRequests`, `nextRequestId`,
`onPendingRequest`, `handleApproveSampling`, `handleRejectSampling`).

The `resolve`/`reject` callback pair held by each queue item is modelled by an
event trace: invoking a capability emits one `SamplingEvent` carrying the item
whose capability was invoked. -/

/-- One entry of `pendingSampleRequests`: `{ id, request, resolve, reject }`
(the two callbacks are represented by the event trace, not stored). -/
structure PendingSampleRequest (α : Type) where
  id : Nat
  request : α
deriving DecidableEq, Repr

/-- An invocation of one queue item's capability: `resolve(result)` or
`reject(error)`. -/
inductive SamplingEvent (α β : Type) where
  | resolved (item : PendingSampleRequest α) (result : β)
  | rejected (item : PendingSampleRequest α) (errMsg : String)
deriving DecidableEq, Repr

/-- The queue item whose capability an event invoked. -/
def SamplingEvent.item : SamplingEvent α β → PendingSampleRequest α
  | .resolved r _ => r
  | .rejected r _ => r

/-- The message of the `Error` passed to `reject` by `handleRejectSampling`. -/
def samplingRejectionMessage : String := "Sampling request rejected"

/-- Source `handleApproveSampling(id, result)`: inside the state update,
`prev.find(r => r.id === id)` is resolved with `result` when found, and the
new queue is `prev.filter(r => r.id !== id)`. -/
def handleApproveSampling (prev : List (PendingSampleRequest α)) (id : Nat) (result : β) :
    List (SamplingEvent α β) × List (PendingSampleRequest α) :=
  (match prev.find? (fun r => r.id == id) with
   | some request => [SamplingEvent.resolved request result]
   | none => [],
   prev.filter (fun r => r.id != id))

/-- Source `handleRejectSampling(id)`: `prev.find(r => r.id === id)` is rejected with
`new Error("Sampling request rejected")` when found, and the new queue is
`prev.filter(r => r.id !== id)`. -/
def handleRejectSampling (β : Type) (prev : List (PendingSampleRequest α)) (id : Nat) :
    List (SamplingEvent α β) × List (PendingSampleRequest α) :=
  (match prev.find? (fun r => r.id == id) with
   | some request => [SamplingEvent.rejected request samplingRejectionMessage]
   | none => [],
   prev.filter (fun r => r.id != id))

/-- One operator decision submitted from the sampling tab. -/
inductive SamplingOp (β : Type) where
  | approve (id : Nat) (result : β)
  | reject (id : Nat)
deriving DecidableEq, Repr

/-- The pending-request id an operator decision names. -/
def SamplingOp.targetId : SamplingOp β → Nat
  | .approve id _ => id
  | .reject id => id

/-- Apply one operator decision to the queue. -/
def applySamplingOp (q : List (PendingSampleRequest α)) :
    SamplingOp β → List (SamplingEvent α β) × List (PendingSampleRequest α)
  | .approve id result => handleApproveSampling q id result
  | .reject id => handleRejectSampling β q id

/-- Apply a sequence of operator decisions, collecting every capability
invocation in order. -/
def runSamplingOps (q : List (PendingSampleRequest α)) :
    List (SamplingOp β) → List (SamplingEvent α β) × List (PendingSampleRequest α)
  | [] => ([], q)
  | op :: ops =>
    let step := applySamplingOp q op
    let rest := runSamplingOps step.2 ops
    (step.1 ++ rest.1, rest.2)

/-- How many events of a trace invoked the capability of the item with id `i`. -/
def idInvocations (i : Nat) (evs : List (SamplingEvent α β)) : Nat :=
  (evs.filter (fun e => e.item.id == i)).length

theorem idInvocations_append (i : Nat) (evs1 evs2 : List (SamplingEvent α β)) :
    idInvocations i (evs1 ++ evs2) = idInvocations i evs1 + idInvocations i evs2 := by
  simp [idInvocations, List.filter_append]

theorem find?_id_unique (q : List (PendingSampleRequest α)) (r : PendingSampleRequest α)
    (hnodup : (q.map PendingSampleRequest.id).Nodup) (hr : r ∈ q) :
    q.find? (fun x => x.id == r.id) = some r := by
  cases h : q.find? (fun x => x.id == r.id) with
  | none =>
    have := List.find?_eq_none.mp h r hr
    simp at this
  | some x =>
    have hx : x ∈ q := List.mem_of_find?_eq_some h
    have hid : x.id = r.id := by simpa using List.find?_some h
    have hxr : x = r := List.inj_on_of_nodup_map hnodup hx hr hid
    exact congrArg some hxr

theorem applySamplingOp_queue (q : List (PendingSampleRequest α)) (op : SamplingOp β) :
    (applySamplingOp q op).2 = q.filter (fun r => r.id != op.targetId) := by
  cases op <;> rfl

theorem applySamplingOp_event_mem (q : List (PendingSampleRequest α)) (op : SamplingOp β)
    (e : SamplingEvent α β) (he : e ∈ (applySamplingOp q op).1) :
    e.item ∈ q ∧ e.item.id = op.targetId := by
  cases op with
  | approve id result =>
    simp only [applySamplingOp, handleApproveSampling] at he
    cases h : q.find? (fun x => x.id == id) with
    | none => rw [h] at he; simp at he
    | some x =>
      rw [h] at he
      simp at he
      subst he
      exact ⟨List.mem_of_find?_eq_some h, by simpa [SamplingEvent.item] using List.find?_some h⟩
  | reject id =>
    simp only [applySamplingOp, handleRejectSampling] at he
    cases h : q.find? (fun x => x.id == id) with
    | none => rw [h] at he; simp at he
    | some x =>
      rw [h] at he
      simp at he
      subst he
      exact ⟨List.mem_of_find?_eq_some h, by simpa [SamplingEvent.item] using List.find?_some h⟩

theorem applySamplingOp_event_of_targeted (q : List (PendingSampleRequest α))
    (op : SamplingOp β) (r : PendingSampleRequest α)
    (hnodup : (q.map PendingSampleRequest.id).Nodup) (hr : r ∈ q)
    (ht : op.targetId = r.id) :
    ∃ ev : SamplingEvent α β, (applySamplingOp q op).1 = [ev] ∧ ev.item = r := by
  cases op with
  | approve id result =>
    have hid : id = r.id := ht
    subst hid
    refine ⟨SamplingEvent.resolved r result, ?_, rfl⟩
    simp only [applySamplingOp, handleApproveSampling, find?_id_unique q r hnodup hr]
  | reject id =>
    have hid : id = r.id := ht
    subst hid
    refine ⟨SamplingEvent.rejected r samplingRejectionMessage, ?_, rfl⟩
    simp only [applySamplingOp, handleRejectSampling, find?_id_unique q r hnodup hr]

theorem runSamplingOps_no_invocation (q : List (PendingSampleRequest α))
    (ops : List (SamplingOp β)) (i : Nat) (h : ∀ x ∈ q, x.id ≠ i) :
    idInvocations i (runSamplingOps q ops).1 = 0
    ∧ ∀ x ∈ (runSamplingOps q ops).2, x.id ≠ i := by
  induction ops generalizing q with
  | nil =>
    exact ⟨by simp [runSamplingOps, idInvocations], fun x hx => h x hx⟩
  | cons op ops ih =>
    have hq2 : ∀ x ∈ (applySamplingOp (β := β) q op).2, x.id ≠ i := by
      intro x hx
      rw [applySamplingOp_queue] at hx
      exact h x (List.mem_of_mem_filter hx)
    have hstep : idInvocations i (applySamplingOp (β := β) q op).1 = 0 := by
      simp only [idInvocations, List.length_eq_zero, List.filter_eq_nil_iff]
      intro e he
      have := applySamplingOp_event_mem q op e he
      simpa using h e.item this.1
    have hrest := ih (applySamplingOp q op).2 hq2
    refine ⟨?_, hrest.2⟩
    simp only [runSamplingOps, idInvocations_append, hstep, hrest.1]

/-- C2: across any sequence of approve/reject calls, including duplicate and
unknown ids, the capability of each queued item is invoked exactly once when
some call in the sequence names its id, and never otherwise; and the item
remains queued exactly when no call named its id (so a matching call removes
it and every later or unmatched call is a no-op that invokes nothing). -/
theorem sampling_resolution_exactly_once (α β : Type) (q : List (PendingSampleRequest α))
    (ops : List (SamplingOp β)) (r : PendingSampleRequest α)
    (hnodup : (q.map PendingSampleRequest.id).Nodup) (hr : r ∈ q) :
    idInvocations r.id (runSamplingOps q ops).1 =
      (if ops.any (fun op => op.targetId == r.id) then 1 else 0)
    ∧ (r ∈ (runSamplingOps q ops).2 ↔ ¬ (ops.any (fun op => op.targetId == r.id) = true)) := by
  induction ops generalizing q with
  | nil =>
    refine ⟨by simp [runSamplingOps, idInvocations], by simpa [runSamplingOps] using hr⟩
  | cons op ops ih =>
    by_cases hop : op.targetId = r.id
    · obtain ⟨ev, hev, hevr⟩ := applySamplingOp_event_of_targeted q op r hnodup hr hop
      have hq2 : ∀ x ∈ (applySamplingOp (β := β) q op).2, x.id ≠ r.id := by
        intro x hx
        rw [applySamplingOp_queue] at hx
        have := List.of_mem_filter hx
        simpa [hop] using this
      have hrest := runSamplingOps_no_invocation (applySamplingOp q op).2 ops r.id hq2
      constructor
      · have : idInvocations r.id (runSamplingOps q (op :: ops)).1 =
            idInvocations r.id (applySamplingOp q op).1 +
              idInvocations r.id (runSamplingOps (applySamplingOp q op).2 ops).1 := by
          simp [runSamplingOps, idInvocations_append]
        rw [this, hrest.1, hev]
        simp [idInvocations, hevr, hop]
      · have hnotmem : r ∉ (runSamplingOps (applySamplingOp q op).2 ops).2 := by
          intro hmem
          exact hrest.2 r hmem rfl
        have hany : (op :: ops).any (fun o => o.targetId == r.id) = true := by
          simp [hop]
        simp only [runSamplingOps]
        constructor
        · intro hmem; exact absurd hmem hnotmem
        · intro hfalse; exact absurd hany hfalse
    · have hq2nodup : ((applySamplingOp (β := β) q op).2.map PendingSampleRequest.id).Nodup := by
        rw [applySamplingOp_queue]
        exact hnodup.sublist ((List.filter_sublist q).map PendingSampleRequest.id)
      have hr2 : r ∈ (applySamplingOp (β := β) q op).2 := by
        rw [applySamplingOp_queue]
        refine List.mem_filter.mpr ⟨hr, ?_⟩
        simpa using fun h => hop h.symm
      have hstep : idInvocations r.id (applySamplingOp (β := β) q op).1 = 0 := by
        simp only [idInvocations, List.length_eq_zero, List.filter_eq_nil_iff]
        intro e he
        have := (applySamplingOp_event_mem q op e he).2
        simpa [this] using hop
      have hrest := ih (applySamplingOp q op).2 hq2nodup hr2
      have hany : ((op :: ops).any (fun o => o.targetId == r.id)) =
          (ops.any (fun o => o.targetId == r.id)) := by
        simp [List.any_cons, hop]
      constructor
      · have : idInvocations r.id (runSamplingOps q (op :: ops)).1 =
            idInvocations r.id (applySamplingOp q op).1 +
              idInvocations r.id (runSamplingOps (applySamplingOp q op).2 ops).1 := by
          simp [runSamplingOps, idInvocations_append]
        rw [this, hstep, hrest.1, hany]
        simp
      · simpa only [runSamplingOps, hany] using hrest.2

/-- Witness for C2 at a concrete input: queue `[{id 0}, {id 1}]`, decisions
`approve 0`, `reject 0` (duplicate), `approve 5` (unknown): item 0's capability
fires once, item 1 stays queued untouched (instantiated at `r = {id 0}`). -/
theorem sampling_resolution_exactly_once_witness :
    (([⟨0, 10⟩, ⟨1, 11⟩] : List (PendingSampleRequest Nat)).map
        PendingSampleRequest.id).Nodup
    ∧ (⟨0, 10⟩ : PendingSampleRequest Nat) ∈
        ([⟨0, 10⟩, ⟨1, 11⟩] : List (PendingSampleRequest Nat))
    ∧ (idInvocations (0 : Nat)
          (runSamplingOps ([⟨0, 10⟩, ⟨1, 11⟩] : List (PendingSampleRequest Nat))
            ([.approve 0 true, .reject 0, .approve 5 false] : List (SamplingOp Bool))).1 =
        (if ([.approve 0 true, .reject 0, .approve 5 false] : List (SamplingOp Bool)).any
            (fun op => op.targetId == 0) then 1 else 0)
      ∧ ((⟨0, 10⟩ : PendingSampleRequest Nat) ∈
            (runSamplingOps ([⟨0, 10⟩, ⟨1, 11⟩] : List (PendingSampleRequest Nat))
              ([.approve 0 true, .reject 0, .approve 5 false] : List (SamplingOp Bool))).2 ↔
          ¬ (([.approve 0 true, .reject 0, .approve 5 false] : List (SamplingOp Bool)).any
              (fun op => op.targetId == 0) = true))) :=
  ⟨by decide, by decide,
   sampling_resolution_exactly_once Nat Bool [⟨0, 10⟩, ⟨1, 11⟩]
     [.approve 0 true, .reject 0, .approve 5 false] ⟨0, 10⟩ (by decide) (by decide)⟩

/-- C8: rejecting a queued item invokes that item's `reject` capability with
the standard operator-rejection error (`"Sampling request rejected"`) — the
server-originated call completes with a well-formed error — and removes the
item from the queue. -/
theorem handleRejectSampling_operator_error (α β : Type)
    (q : List (PendingSampleRequest α)) (r : PendingSampleRequest α)
    (hnodup : (q.map PendingSampleRequest.id).Nodup) (hr : r ∈ q) :
    (handleRejectSampling β q r.id).1 = [SamplingEvent.rejected r samplingRejectionMessage]
    ∧ ∀ x ∈ (handleRejectSampling β q r.id).2, x.id ≠ r.id := by
  constructor
  · simp only [handleRejectSampling, find?_id_unique q r hnodup hr]
  · intro x hx
    simp only [handleRejectSampling] at hx
    simpa using List.of_mem_filter hx

/-- Witness for C8 at a concrete input. -/
theorem handleRejectSampling_operator_error_witness :
    (([⟨0, 7⟩, ⟨1, 8⟩] : List (PendingSampleRequest Nat)).map
        PendingSampleRequest.id).Nodup
    ∧ (⟨1, 8⟩ : PendingSampleRequest Nat) ∈
        ([⟨0, 7⟩, ⟨1, 8⟩] : List (PendingSampleRequest Nat))
    ∧ ((handleRejectSampling Bool ([⟨0, 7⟩, ⟨1, 8⟩] : List (PendingSampleRequest Nat))
          (1 : Nat)).1 =
        [SamplingEvent.rejected ⟨1, 8⟩ samplingRejectionMessage]
      ∧ ∀ x ∈ (handleRejectSampling Bool
            ([⟨0, 7⟩, ⟨1, 8⟩] : List (PendingSampleRequest Nat)) (1 : Nat)).2,
          x.id ≠ (1 : Nat)) :=
  ⟨by decide, by decide,
   handleRejectSampling_operator_error Nat Bool [⟨0, 7⟩, ⟨1, 8⟩] ⟨1, 8⟩
     (by decide) (by decide)⟩

/-- The `nextRequestId` counter and the pending queue it feeds. -/
structure SamplingManagerState (α : Type) where
  nextRequestId : Nat
  pendingSampleRequests : List (PendingSampleRequest α)
deriving DecidableEq, Repr

/-- Initial manager state: `nextRequestId = 0`, empty queue. -/
def initialSamplingManagerState (α : Type) : SamplingManagerState α := ⟨0, []⟩

/-- Source `onPendingRequest(request, resolve, reject)`: appends
`{ id: nextRequestId.current++, request, resolve, reject }` to the queue. -/
def onPendingRequest (s : SamplingManagerState α) (request : α) : SamplingManagerState α :=
  { nextRequestId := s.nextRequestId + 1
    pendingSampleRequests :=
      s.pendingSampleRequests ++ [{ id := s.nextRequestId, request := request }] }

/-- A sequence of server-initiated sampling requests arriving in order. -/
def runPendingRequests (s : SamplingManagerState α) (requests : List α) :
    SamplingManagerState α :=
  requests.foldl onPendingRequest s

theorem runPendingRequests_ids (s : SamplingManagerState α) (requests : List α) :
    (runPendingRequests s requests).pendingSampleRequests.map PendingSampleRequest.id =
      s.pendingSampleRequests.map PendingSampleRequest.id ++
        List.range' s.nextRequestId requests.length := by
  induction requests generalizing s with
  | nil => simp [runPendingRequests]
  | cons x xs ih =>
    simp only [runPendingRequests, List.foldl_cons, List.length_cons, List.range'_succ]
    rw [show xs.foldl onPendingRequest (onPendingRequest s x) =
      runPendingRequests (onPendingRequest s x) xs from rfl, ih]
    simp [onPendingRequest, List.append_assoc]

/-- C9: within one manager lifetime (starting from `nextRequestId = 0` and an
empty queue), any sequence of sampling-request enqueues assigns the ids
`0, 1, 2, …` in order: the assigned ids are strictly increasing and therefore
pairwise distinct — no two pending requests ever receive the same id. -/
theorem pending_request_ids_strict_mono (α : Type) (requests : List α) :
    ((runPendingRequests (initialSamplingManagerState α) requests).pendingSampleRequests.map
        PendingSampleRequest.id) = List.range requests.length
    ∧ ((runPendingRequests (initialSamplingManagerState α) requests).pendingSampleRequests.map
        PendingSampleRequest.id).Pairwise (· < ·)
    ∧ ((runPendingRequests (initialSamplingManagerState α) requests).pendingSampleRequests.map
        PendingSampleRequest.id).Nodup := by
  have h : ((runPendingRequests (initialSamplingManagerState α)
      requests).pendingSampleRequests.map PendingSampleRequest.id) =
      List.range requests.length := by
    rw [runPendingRequests_ids]
    simp [initialSamplingManagerState, List.range_eq_range']
  refine ⟨h, ?_, ?_⟩
  · rw [h]; exact List.pairwise_lt_range requests.length
  · rw [h]; exact List.nodup_range requests.length

/-! ## Tool invocation (App.tsx `callTool`, `progressTokenRef`) -/

/-- One entry of a tool result's `content` array; the failure path builds
`{ type: "text", text: message }`. -/
structure ToolContentItem where
  type : String
  text : String
deriving DecidableEq, Repr

/-- The `CompatibilityCallToolResult` shape as used by `callTool`. -/
structure CompatibilityCallToolResult where
  content : List ToolContentItem
  isError : Bool
deriving DecidableEq, Repr

/-- The `params` object `callTool` sends: tool name, its arguments, and
`_meta.progressToken`. -/
structure ToolCallParams (γ : Type) where
  name : String
  arguments : γ
  progressToken : Nat
deriving DecidableEq, Repr

/-- The part of the component state `callTool` touches: the
`progressTokenRef` counter, the `errors` record (written through
`sendMCPRequest` with category `tools`), and the `toolResult` slot. -/
structure ToolCallState where
  progressTokenRef : Nat
  errors : ErrorsState
  toolResult : Option CompatibilityCallToolResult
deriving DecidableEq, Repr

/-- Source `callTool(name, params)`: builds `params._meta.progressToken =
progressTokenRef.current++` (the counter is read for the request and then
incremented, before the request is dispatched), awaits `sendMCPRequest(...,
"tools")` whose dispatch outcome is the oracle argument, stores the response
as the tool result on success, and on any thrown error catches it and stores
`{ content: [{type: "text", text: message}], isError: true }` instead.
Returns the issued request params alongside the new state. -/
def callTool (s : ToolCallState) (name : String) (arguments : γ)
    (dispatchResult : Except String CompatibilityCallToolResult) :
    ToolCallParams γ × ToolCallState :=
  let params : ToolCallParams γ :=
    { name := name, arguments := arguments, progressToken := s.progressTokenRef }
  let counterAfter := s.progressTokenRef + 1
  let sent := sendMCPRequest s.errors (some TabKey.tools) dispatchResult
  match sent.2 with
  | .ok response =>
      (params,
       { progressTokenRef := counterAfter, errors := sent.1, toolResult := some response })
  | .error msg =>
      (params,
       { progressTokenRef := counterAfter, errors := sent.1
         toolResult := some { content := [{ type := "text", text := msg }], isError := true } })

/-- A sequence of `callTool` invocations in one session: each entry is the
tool name, its arguments, and the dispatch outcome. Returns the issued
requests in order and the final state. -/
def runToolCalls (s : ToolCallState) :
    List (String × γ × Except String CompatibilityCallToolResult) →
    List (ToolCallParams γ) × ToolCallState
  | [] => ([], s)
  | c :: cs =>
    let step := callTool s c.1 c.2.1 c.2.2
    let rest := runToolCalls step.2 cs
    (step.1 :: rest.1, rest.2)

theorem callTool_token (s : ToolCallState) (name : String) (arguments : γ)
    (dispatchResult : Except String CompatibilityCallToolResult) :
    (callTool s name arguments dispatchResult).1.progressToken = s.progressTokenRef
    ∧ (callTool s name arguments dispatchResult).2.progressTokenRef = s.progressTokenRef + 1 := by
  cases dispatchResult <;> simp [callTool, sendMCPRequest]

theorem runToolCalls_tokens (s : ToolCallState)
    (calls : List (String × γ × Except String CompatibilityCallToolResult)) :
    (runToolCalls s calls).1.map ToolCallParams.progressToken =
      List.range' s.progressTokenRef calls.length := by
  induction calls generalizing s with
  | nil => simp [runToolCalls]
  | cons c cs ih =>
    simp only [runToolCalls, List.map_cons, List.length_cons, List.range'_succ]
    rw [(callTool_token s c.1 c.2.1 c.2.2).1, ih, (callTool_token s c.1 c.2.1 c.2.2).2]

/-- C6: every `tools/call` issuance attaches the current value of the
per-session monotonic counter as its progress token and increments the counter
before send, so across any sequence of tool calls in one session the attached
tokens are consecutive values starting at the counter — strictly increasing
and never reused. -/
theorem callTool_progress_tokens_fresh (γ : Type) (s : ToolCallState)
    (calls : List (String × γ × Except String CompatibilityCallToolResult)) :
    (runToolCalls s calls).1.map ToolCallParams.progressToken =
      List.range' s.progressTokenRef calls.length
    ∧ ((runToolCalls s calls).1.map ToolCallParams.progressToken).Pairwise (· < ·)
    ∧ ((runToolCalls s calls).1.map ToolCallParams.progressToken).Nodup := by
  have h := runToolCalls_tokens s calls
  refine ⟨h, ?_, ?_⟩
  · rw [h]; exact List.pairwise_lt_range' s.progressTokenRef calls.length
  · rw [h]; exact List.nodup_range' s.progressTokenRef calls.length

/-- C10: `callTool` never propagates a dispatch failure to its caller (it is a
total state transformer); a failing dispatch is converted into a tool result
with `isError = true` whose single text content item carries the error
message, and that result is stored as the current `toolResult`. -/
theorem callTool_error_captured (γ : Type) (s : ToolCallState) (name : String)
    (arguments : γ) (msg : String) :
    (callTool s name arguments (Except.error msg)).2.toolResult =
      some { content := [{ type := "text", text := msg }], isError := true } := by
  simp [callTool, sendMCPRequest]

/-! ## Connection manager (`MCPServerButton`: `activeServerIds` reconciliation
effect and `totalAvailableTools`) -/

/-- Per-server lifecycle state (`McpConnectionState` in `mcp.types`). -/
inductive McpConnectionState where
  | Stopped
  | Starting
  | Running
  | Failed
deriving DecidableEq, Repr

/-- One value of the `serverStates` record: the fields the component reads
(`id`, `label`, `status`, `error`, and the optional `tools` array). -/
structure ServerStateInfo where
  id : String
  label : String
  status : McpConnectionState
  tools : Option (List String)
  error : Option String
deriving DecidableEq, Repr

/-- Lookup `serverStates[id]`: the record is modelled as an association list whose
keys (the `Object.entries` first components) are unique. -/
def lookupServerState (serverStates : List (String × ServerStateInfo)) (id : String) :
    Option ServerStateInfo :=
  (serverStates.find? (fun entry => entry.1 == id)).map Prod.snd

/-- The predicate `serverStates[id] && serverStates[id].status === Running`
used by the reconciliation filter. -/
def isRunningId (serverStates : List (String × ServerStateInfo)) (id : String) : Bool :=
  match lookupServerState serverStates id with
  | some st => st.status == McpConnectionState.Running
  | none => false

/-- The reconciliation effect run on every `serverStates` change:
`updatedActiveIds` keeps the active ids still `Running`, `newActiveIds`
collects `Running` servers not yet tracked, and `setActiveServerIds` is called
with their concatenation only when something actually changed (`some` = a
state update with the new list, `none` = no update). -/
def reconcileActiveIds (serverStates : List (String × ServerStateInfo))
    (activeServerIds : List String) : Option (List String) :=
  let updatedActiveIds := activeServerIds.filter (isRunningId serverStates)
  let newActiveIds :=
    (serverStates.filter (fun entry =>
      entry.2.status == McpConnectionState.Running
        && !(updatedActiveIds.contains entry.1))).map Prod.fst
  if updatedActiveIds.length ≠ activeServerIds.length ∨ 0 < newActiveIds.length then
    some (updatedActiveIds ++ newActiveIds)
  else
    none

theorem lookupServerState_of_mem (serverStates : List (String × ServerStateInfo))
    (entry : String × ServerStateInfo) (hkeys : (serverStates.map Prod.fst).Nodup)
    (hmem : entry ∈ serverStates) :
    lookupServerState serverStates entry.1 = some entry.2 := by
  unfold lookupServerState
  cases h : serverStates.find? (fun e => e.1 == entry.1) with
  | none =>
    have := List.find?_eq_none.mp h entry hmem
    simp at this
  | some e2 =>
    have he2 : e2 ∈ serverStates := List.mem_of_find?_eq_some h
    have hfst : e2.1 = entry.1 := by simpa using List.find?_some h
    have he : e2 = entry := List.inj_on_of_nodup_map hkeys he2 hmem hfst
    rw [he]
    rfl

/-- C4: after the reconciliation effect, the tracked active set consists of
exactly the ids whose connection is `Running` (every non-`Running` id is
dropped, every untracked `Running` id is added); and when the active set
already equals the `Running` set, the effect performs no state update. -/
theorem reconcile_active_equals_running (serverStates : List (String × ServerStateInfo))
    (activeServerIds : List String) (hkeys : (serverStates.map Prod.fst).Nodup) :
    (∀ id : String,
      id ∈ (reconcileActiveIds serverStates activeServerIds).getD activeServerIds ↔
        isRunningId serverStates id = true)
    ∧ ((∀ id : String, id ∈ activeServerIds ↔ isRunningId serverStates id = true) →
        reconcileActiveIds serverStates activeServerIds = none) := by
  constructor
  · intro id
    unfold reconcileActiveIds
    by_cases hcond : (activeServerIds.filter (isRunningId serverStates)).length ≠
        activeServerIds.length ∨
        0 < ((serverStates.filter (fun entry =>
          entry.2.status == McpConnectionState.Running
            && !((activeServerIds.filter (isRunningId serverStates)).contains entry.1))).map
          Prod.fst).length
    · rw [if_pos hcond]
      simp only [Option.getD_some, List.mem_append]
      constructor
      · rintro (hup | hnew)
        · exact List.of_mem_filter hup
        · obtain ⟨entry, hentry, hfst⟩ := List.mem_map.mp hnew
          have hin := List.mem_of_mem_filter hentry
          have hrun := List.of_mem_filter hentry
          have hlook := lookupServerState_of_mem serverStates entry hkeys hin
          rw [hfst] at hlook
          simp only [Bool.and_eq_true] at hrun
          simp [isRunningId, hlook, hrun.1]
      · intro hrun
        by_cases hup : id ∈ activeServerIds.filter (isRunningId serverStates)
        · exact Or.inl hup
        · refine Or.inr ?_
          obtain ⟨st, hlook, hst⟩ : ∃ st, lookupServerState serverStates id = some st ∧
              st.status = McpConnectionState.Running := by
            unfold isRunningId at hrun
            cases hl : lookupServerState serverStates id with
            | none => rw [hl] at hrun; simp at hrun
            | some st =>
              rw [hl] at hrun
              exact ⟨st, rfl, by simpa using hrun⟩
          have hpair : (id, st) ∈ serverStates := by
            unfold lookupServerState at hlook
            cases hf : serverStates.find? (fun e => e.1 == id) with
            | none => rw [hf] at hlook; simp at hlook
            | some e2 =>
              rw [hf] at hlook
              have hfst : e2.1 = id := by simpa using List.find?_some hf
              have hsnd : e2.2 = st := by simpa using hlook
              have := List.mem_of_find?_eq_some hf
              rwa [show e2 = (id, st) from Prod.ext hfst hsnd] at this
          refine List.mem_map.mpr ⟨(id, st), List.mem_filter.mpr ⟨hpair, ?_⟩, rfl⟩
          simp only [Bool.and_eq_true, beq_iff_eq]
          refine ⟨hst, ?_⟩
          simp only [Bool.not_eq_true']
          simpa using hup
    · rw [if_neg hcond]
      push_neg at hcond
      obtain ⟨hlen, hnew⟩ := hcond
      have hall : ∀ a ∈ activeServerIds, isRunningId serverStates a = true :=
        fun a ha => List.filter_length_eq_length.mp hlen a ha
      have hfilter : activeServerIds.filter (isRunningId serverStates) = activeServerIds :=
        List.filter_eq_self.mpr hall
      have hnil : (serverStates.filter (fun entry =>
          entry.2.status == McpConnectionState.Running
            && !((activeServerIds.filter (isRunningId serverStates)).contains entry.1))) = [] := by
        have hmapnil := List.length_eq_zero.mp (Nat.le_zero.mp hnew)
        exact List.map_eq_nil_iff.mp hmapnil
      simp only [Option.getD_none]
      constructor
      · intro hid; exact hall id hid
      · intro hrun
        by_contra hid
        obtain ⟨st, hlook, hst⟩ : ∃ st, lookupServerState serverStates id = some st ∧
            st.status = McpConnectionState.Running := by
          unfold isRunningId at hrun
          cases hl : lookupServerState serverStates id with
          | none => rw [hl] at hrun; simp at hrun
          | some st =>
            rw [hl] at hrun
            exact ⟨st, rfl, by simpa using hrun⟩
        have hpair : (id, st) ∈ serverStates := by
          unfold lookupServerState at hlook
          cases hf : serverStates.find? (fun e => e.1 == id) with
          | none => rw [hf] at hlook; simp at hlook
          | some e2 =>
            rw [hf] at hlook
            have hfst : e2.1 = id := by simpa using List.find?_some hf
            have hsnd : e2.2 = st := by simpa using hlook
            have := List.mem_of_find?_eq_some hf
            rwa [show e2 = (id, st) from Prod.ext hfst hsnd] at this
        have := List.filter_eq_nil_iff.mp hnil (id, st) hpair
        rw [hfilter] at this
        simp only [Bool.and_eq_true, beq_iff_eq, Bool.not_eq_true'] at this
        have hcontains : activeServerIds.contains id = false := by
          simpa using hid
        exact (this ⟨hst, hcontains⟩).elim
  · intro h
    unfold reconcileActiveIds
    have hfilter : activeServerIds.filter (isRunningId serverStates) = activeServerIds :=
      List.filter_eq_self.mpr (fun a ha => (h a).mp ha)
    rw [if_neg]
    push_neg
    constructor
    · rw [hfilter]
    · rw [Nat.le_zero, List.length_eq_zero, List.map_eq_nil_iff]
      refine List.filter_eq_nil_iff.mpr ?_
      intro entry hentry
      simp only [Bool.and_eq_true, beq_iff_eq, Bool.not_eq_true', not_and]
      intro hst
      have hlook := lookupServerState_of_mem serverStates entry hkeys hentry
      have hrun : isRunningId serverStates entry.1 = true := by
        simp [isRunningId, hlook, hst]
      have hmem : entry.1 ∈ activeServerIds := (h entry.1).mpr hrun
      rw [hfilter]
      have hct : activeServerIds.contains entry.1 = true := List.elem_iff.mpr hmem
      intro hc
      exact absurd (hct.symm.trans hc) (by decide)

/-- Witness for C4 at a concrete input: server "a" is `Running` but untracked,
"b" is `Stopped` yet tracked; reconciliation makes the active set exactly
`{"a"}`, and an already-consistent set triggers no update. -/
theorem reconcile_active_equals_running_witness :
    (([("a", ⟨"a", "A", McpConnectionState.Running, some ["t1"], none⟩),
       ("b", ⟨"b", "B", McpConnectionState.Stopped, none, none⟩)] :
        List (String × ServerStateInfo)).map Prod.fst).Nodup
    ∧ ((∀ id : String,
        id ∈ (reconcileActiveIds
            [("a", ⟨"a", "A", McpConnectionState.Running, some ["t1"], none⟩),
             ("b", ⟨"b", "B", McpConnectionState.Stopped, none, none⟩)]
            ["b"]).getD ["b"] ↔
          isRunningId
            [("a", ⟨"a", "A", McpConnectionState.Running, some ["t1"], none⟩),
             ("b", ⟨"b", "B", McpConnectionState.Stopped, none, none⟩)] id = true)
      ∧ ((∀ id : String, id ∈ (["b"] : List String) ↔
          isRunningId
            [("a", ⟨"a", "A", McpConnectionState.Running, some ["t1"], none⟩),
             ("b", ⟨"b", "B", McpConnectionState.Stopped, none, none⟩)] id = true) →
          reconcileActiveIds
            [("a", ⟨"a", "A", McpConnectionState.Running, some ["t1"], none⟩),
             ("b", ⟨"b", "B", McpConnectionState.Stopped, none, none⟩)]
            ["b"] = none)) :=
  ⟨by decide,
   reconcile_active_equals_running
     [("a", ⟨"a", "A", McpConnectionState.Running, some ["t1"], none⟩),
      ("b", ⟨"b", "B", McpConnectionState.Stopped, none, none⟩)]
     ["b"] (by decide)⟩

/-- Source `totalAvailableTools`: filters `serverStates` entries to the active ids,
then folds, adding `server.tools.length` for each entry that is `Running` and
has a `tools` array. -/
def totalAvailableTools (serverStates : List (String × ServerStateInfo))
    (activeServerIds : List String) : Nat :=
  (serverStates.filter (fun entry => activeServerIds.contains entry.1)).foldl
    (fun count entry =>
      if entry.2.status == McpConnectionState.Running then
        match entry.2.tools with
        | some ts => count + ts.length
        | none => count
      else count) 0

theorem totalAvailableTools_foldl (l : List (String × ServerStateInfo)) (c : Nat) :
    l.foldl (fun count entry =>
      if entry.2.status == McpConnectionState.Running then
        match entry.2.tools with
        | some ts => count + ts.length
        | none => count
      else count) c =
    c + (l.map (fun entry =>
      if entry.2.status = McpConnectionState.Running then
        (entry.2.tools.map List.length).getD 0
      else 0)).sum := by
  induction l generalizing c with
  | nil => simp
  | cons e l ih =>
    simp only [List.foldl_cons, List.map_cons, List.sum_cons]
    rw [ih]
    by_cases h : e.2.status = McpConnectionState.Running
    · cases htools : e.2.tools with
      | some ts =>
        simp [h, htools]
        exact Nat.add_assoc c ts.length _
      | none =>
        simp [h, htools]
    · have hb : (e.2.status == McpConnectionState.Running) = false := by
        simpa using h
      simp [hb, h]

theorem sum_map_filter_eq (l : List σ) (p : σ → Bool) (g : σ → Nat) :
    ((l.filter p).map g).sum = (l.map (fun x => if p x then g x else 0)).sum := by
  induction l with
  | nil => rfl
  | cons e l ih =>
    by_cases h : p e <;> simp [List.filter_cons, h, ih]

/-- C7: the aggregated tool count equals the sum of `tools.length` over
exactly those servers that are both in the active set and `Running` (an absent
`tools` array counts as zero); inactive or non-`Running` servers contribute
nothing. -/
theorem totalAvailableTools_spec (serverStates : List (String × ServerStateInfo))
    (activeServerIds : List String) :
    totalAvailableTools serverStates activeServerIds =
      (serverStates.map (fun entry =>
        if entry.1 ∈ activeServerIds ∧ entry.2.status = McpConnectionState.Running then
          (entry.2.tools.map List.length).getD 0
        else 0)).sum := by
  unfold totalAvailableTools
  rw [totalAvailableTools_foldl, Nat.zero_add, sum_map_filter_eq]
  congr 1
  refine List.map_congr_left ?_
  intro entry _
  by_cases hact : entry.1 ∈ activeServerIds
  · have : activeServerIds.contains entry.1 = true := List.elem_iff.mpr hact
    simp [this, hact]
  · have : activeServerIds.contains entry.1 = false := by
      simpa using hact
    simp [this, hact]

end Inspector
